import Mathlib

/-!
# Verification of the Rune-Vault service (`mcp/vault`)

Shallow embedding of the Vault trust-boundary service:
* the sliding-window rate limiter (`RateLimiter.is_allowed`, `get_retry_after`),
* token validation (`validate_token`),
* the public key bundle operation (`_get_public_key_impl`),
* the score decryption and top-K operation (`_decrypt_scores_impl`),
* the batch metadata decryption operation (`_decrypt_metadata_impl`, modelled
  from the spec because its definition is absent from the provided sources).

Conventions of the embedding:
* wall-clock times and decrypted scores are rationals (`ℚ`);
* the on-disk key directory is an association list from file basename to file
  content (`List (String × String)`), mirroring `os.path.exists` + `open().read()`;
* Python exceptions (`ValueError` raised by `validate_token`) become
  `Except VaultErr`; "soft errors" (JSON objects with an `error` key returned
  with success status) stay in the `.ok` branch, as in the source;
* external crypto-library calls (base64 decode, `Query.deserializeFrom`,
  `cipher.decrypt`) are a parameter `dec` of the decryption operation: the
  Vault code under verification is everything around them.
-/

/-- JSON values, as produced by `json.dumps`/`json.loads` in the handlers.
Numbers are rationals (Python floats are used only as opaque score values). -/
inductive JsonVal where
  | str : String → JsonVal
  | num : ℚ → JsonVal
  | arr : List JsonVal → JsonVal
  | obj : List (String × JsonVal) → JsonVal

/-- Escape a string for inclusion in a JSON document (the cases `json.dumps`
needs for the characters that occur in this development: backslash, quote,
and the common control characters). -/
def json_escape (s : String) : String :=
  String.mk (s.data.foldr
    (fun c acc =>
      if c = '\\' then '\\' :: '\\' :: acc
      else if c = '"' then '\\' :: '"' :: acc
      else if c = '\n' then '\\' :: 'n' :: acc
      else if c = '\t' then '\\' :: 't' :: acc
      else if c = '\r' then '\\' :: 'r' :: acc
      else c :: acc) [])

/-- `json.dumps` of a dict whose values are all strings, with Python's default
separators (`", "` and `": "`), preserving insertion order. -/
def dumps_str_obj (kvs : List (String × String)) : String :=
  "\x7b" ++ String.intercalate ", "
    (kvs.map (fun kv => "\"" ++ json_escape kv.1 ++ "\": \"" ++ json_escape kv.2 ++ "\""))
  ++ "\x7d"

/-! ## Rate limiter (`RateLimiter`, vault_mcp.py lines 110-141)

The limiter state for one principal is the list of recorded request
timestamps (the value `self._requests[client_id]`); the map is keyed by the
token string, and each call touches only its own principal's list. -/

/-- The cleanup step of `is_allowed`:
`[t for t in self._requests[client_id] if now - t < self.window_seconds]`. -/
def clean_requests (window_seconds now : ℚ) (ts : List ℚ) : List ℚ :=
  ts.filter (fun t => now - t < window_seconds)

/-- `RateLimiter.is_allowed` for one principal: drop entries outside the
window, refuse without recording when the remaining count reaches
`max_requests`, otherwise record `now` and allow.  Returns the decision and
the principal's new timestamp list. -/
def is_allowed (max_requests : ℕ) (window_seconds now : ℚ) (st : List ℚ) :
    Bool × List ℚ :=
  let cleaned := clean_requests window_seconds now st
  if max_requests ≤ cleaned.length then (false, cleaned)
  else (true, cleaned ++ [now])

/-- Python `int()` on a rational: truncation toward zero (`Int.div` of the
numerator by the denominator truncates toward zero). -/
def rat_trunc (q : ℚ) : ℤ := q.num / (q.den : ℤ)

/-- `RateLimiter.get_retry_after`: seconds until the oldest remaining
timestamp exits the window; `0` when the principal has no timestamps. -/
def get_retry_after (window_seconds now : ℚ) (st : List ℚ) : ℤ :=
  match st with
  | [] => 0
  | t :: ts => max 0 (rat_trunc (window_seconds - (now - ts.foldl min t)))

/-! ## Token validation (vault_mcp.py lines 95-155) -/

/-- The demo token allowlist loaded when `VAULT_TOKENS` is unset. -/
def VALID_TOKENS : List String :=
  ["DEMO-TOKEN-GET-YOUR-OWN-AT-ENVECTOR-IO", "DEMO-ADMIN-SIGNUP-AT-ENVECTOR-IO"]

/-- The two `ValueError` kinds `validate_token` can raise. -/
inductive VaultErr where
  | rateLimited (retry_after : ℤ)
  | unauthenticated
deriving DecidableEq

/-- The message carried by the raised `ValueError`. -/
def VaultErr.message : VaultErr → String
  | .rateLimited r => "Rate limit exceeded. Retry after " ++ toString r ++ " seconds."
  | .unauthenticated => "Access Denied: Invalid authentication token"

/-- `validate_token`: rate-limit the principal (by token), then check
membership in the allowlist.  Returns the outcome together with the
principal's updated timestamp list — note that `is_allowed` has already
rewritten the stored list (cleaned, and extended by `now` iff it allowed). -/
def validate_token (tokens : List String) (max_requests : ℕ)
    (window_seconds now : ℚ) (token : String) (st : List ℚ) :
    Except VaultErr Unit × List ℚ :=
  match is_allowed max_requests window_seconds now st with
  | (false, st') => (.error (.rateLimited (get_retry_after window_seconds now st')), st')
  | (true, st') =>
    if token ∈ tokens then (.ok (), st') else (.error .unauthenticated, st')

/-! ## Public key bundle (`_get_public_key_impl`, vault_mcp.py lines 158-180) -/

/-- The filenames the bundle loop iterates over, in source order. -/
def public_key_filenames : List String :=
  ["EncKey.json", "EvalKey.json", "MetadataKey.json"]

/-- The bundle dict: for each filename in order, if the file exists in the
key directory, map the filename to the file's content. -/
def build_bundle (fs : List (String × String)) : List (String × String) :=
  public_key_filenames.filterMap (fun n => (fs.lookup n).map (fun c => (n, c)))

/-- `_get_public_key_impl`: validate the token, then return `json.dumps` of
the bundle.  `fs` is the key directory (basename ↦ content). -/
def get_public_key_impl (tokens : List String) (max_requests : ℕ)
    (window_seconds now : ℚ) (token : String) (st : List ℚ)
    (fs : List (String × String)) : Except VaultErr String × List ℚ :=
  match validate_token tokens max_requests window_seconds now token st with
  | (.error e, st') => (.error e, st')
  | (.ok _, st') => (.ok (dumps_str_obj (build_bundle fs)), st')

/-! ## Score decryption and top-K (`_decrypt_scores_impl`, vault_mcp.py lines 204-265) -/

/-- The dynamically-typed value `cipher.decrypt` returns: either a flat list
of scores or a nested list whose first element is unwrapped. -/
inductive PyVec where
  | flat : List ℚ → PyVec
  | nested : List (List ℚ) → PyVec

/-- The unwrapping step: `if isinstance(dv, list) and len(dv) > 0 and
isinstance(dv[0], (list, np.ndarray)): dv = dv[0]`.  An empty nested list is
left as the empty score vector. -/
def unwrap_vector : PyVec → List ℚ
  | .flat v => v
  | .nested [] => []
  | .nested (v :: _) => v

/-- Failures of the opaque decode-and-decrypt pipeline: exceptions raised by
`Query.deserializeFrom` (caught by the inner `try`, reported with the
`Deserialization failed: ` prefix) versus every other exception (caught by
the outer `try`, reported verbatim). -/
inductive DecodeErr where
  | deserialization (msg : String)
  | other (msg : String)

/-- Comparison of score-vector positions by value, ties by position: the
deterministic total order used to model `np.argsort` (which sorts
ascending) on index lists. -/
def idx_le (v : List ℚ) (i j : ℕ) : Prop :=
  v.getD i 0 < v.getD j 0 ∨ (v.getD i 0 = v.getD j 0 ∧ i ≤ j)

instance (v : List ℚ) : DecidableRel (idx_le v) := fun i j => by
  unfold idx_le; infer_instance

instance (v : List ℚ) : IsTotal ℕ (idx_le v) := by
  constructor
  intro i j
  rcases lt_trichotomy (v.getD i 0) (v.getD j 0) with h | h | h
  · exact Or.inl (Or.inl h)
  · rcases Nat.le_total i j with hij | hij
    · exact Or.inl (Or.inr ⟨h, hij⟩)
    · exact Or.inr (Or.inr ⟨h.symm, hij⟩)
  · exact Or.inr (Or.inl h)

instance (v : List ℚ) : IsTrans ℕ (idx_le v) := by
  constructor
  intro i j k hij hjk
  rcases hij with h1 | ⟨h1, h1'⟩
  · rcases hjk with h2 | ⟨h2, _⟩
    · exact Or.inl (h1.trans h2)
    · exact Or.inl (h2 ▸ h1)
  · rcases hjk with h2 | ⟨h2, h2'⟩
    · exact Or.inl (h1 ▸ h2)
    · exact Or.inr ⟨h1.trans h2, h1'.trans h2'⟩

/-- `np.argsort(v)`: the positions `0, …, len v - 1` sorted ascending by
value (deterministically: ties by position). -/
def argsort (v : List ℚ) : List ℕ :=
  List.insertionSort (idx_le v) (List.range v.length)

/-- Python's slice `l[s:]` for an arbitrary integer `s`:
a negative start counts from the end (clamped at 0). -/
def py_slice_from (s : ℤ) (l : List α) : List α :=
  if s < 0 then l.drop (l.length - (-s).toNat) else l.drop s.toNat

/-- The index-selection step of `_decrypt_scores_impl`:
`argsort(scores)[::-1]` when the vector is short, otherwise
`argpartition(scores, -top_k)[-top_k:]` re-sorted descending by score.
`argpartition` only promises that the sliced tail holds the `top_k` largest
entries; it is modelled by the fully sorted order (a deterministic instance
of that contract), after which the Python slice `[-top_k:]` is applied
literally — in particular `top_k = 0` slices the whole array. -/
def top_indices (v : List ℚ) (top_k : ℤ) : List ℕ :=
  if (v.length : ℤ) ≤ top_k then (argsort v).reverse
  else (List.insertionSort (idx_le v) (py_slice_from (-top_k) (argsort v))).reverse

/-- One element of the success response of `_decrypt_scores_impl`:
`{"index": int(idx), "score": float(scores[idx])}`. -/
structure ScoreEntry where
  idx : ℕ
  score : ℚ
deriving DecidableEq

/-- The `params` list built from the selected indices. -/
def score_params (v : List ℚ) (top_k : ℤ) : List ScoreEntry :=
  (top_indices v top_k).map (fun i => ⟨i, v.getD i 0⟩)

/-- JSON rendering of one score entry, field order as in the source. -/
def score_entry_json (e : ScoreEntry) : JsonVal :=
  .obj [("index", .num e.idx), ("score", .num e.score)]

/-- `_decrypt_scores_impl`: validate the token, enforce the `top_k` policy,
run the opaque decode-and-decrypt pipeline `dec`, unwrap, select the top-K
indices and serialize them.  Soft errors are `.ok` JSON objects with an
`error` key; only authentication/rate-limit failures are thrown. -/
def decrypt_scores_impl (tokens : List String) (max_requests : ℕ)
    (window_seconds now : ℚ) (dec : String → Except DecodeErr PyVec)
    (token encrypted_blob_b64 : String) (top_k : ℤ) (st : List ℚ) :
    Except VaultErr JsonVal × List ℚ :=
  match validate_token tokens max_requests window_seconds now token st with
  | (.error e, st') => (.error e, st')
  | (.ok _, st') =>
    if 10 < top_k then
      (.ok (.obj [("error", .str "Rate Limit Exceeded: Max top_k is 10")]), st')
    else
      match dec encrypted_blob_b64 with
      | .error (.deserialization msg) =>
        (.ok (.obj [("error", .str ("Deserialization failed: " ++ msg))]), st')
      | .error (.other msg) =>
        (.ok (.obj [("error", .str msg)]), st')
      | .ok pv =>
        (.ok (.arr ((score_params (unwrap_vector pv) top_k).map score_entry_json)), st')

/-! ## Metadata decryption (`_decrypt_metadata_impl`) -/

/-- Short-circuiting batch decryption: decrypt each element in order,
aborting on the first failure. -/
def decrypt_all (dec : String → Except String JsonVal) :
    List String → Except String (List JsonVal)
  | [] => .ok []
  | x :: xs =>
    match dec x with
    | .error e => .error e
    | .ok v => (decrypt_all dec xs).map (v :: ·)

/-- Modelled from the spec: `_decrypt_metadata_impl` is imported from
`vault_mcp` by `vault_grpc_server.py` but its definition is absent from the
provided sources; this follows spec §4.6 — validate the token, fail softly
when the `MetadataKey` file is absent, call `C2.aes_decrypt_metadata` on each
element with any failure short-circuiting the batch into
`{error: "Metadata decryption failed: <detail>"}`, and on success return the
JSON array of decrypted plaintext values. -/
def decrypt_metadata_impl (tokens : List String) (max_requests : ℕ)
    (window_seconds now : ℚ) (metadata_key_present : Bool)
    (aes_decrypt : String → Except String JsonVal)
    (token : String) (encrypted_list : List String) (st : List ℚ) :
    Except VaultErr JsonVal × List ℚ :=
  match validate_token tokens max_requests window_seconds now token st with
  | (.error e, st') => (.error e, st')
  | (.ok _, st') =>
    if metadata_key_present = false then
      (.ok (.obj [("error", .str "MetadataKey not found in Vault")]), st')
    else
      match decrypt_all aes_decrypt encrypted_list with
      | .error msg =>
        (.ok (.obj [("error", .str ("Metadata decryption failed: " ++ msg))]), st')
      | .ok vals => (.ok (.arr vals), st')

/-! ## Traces of rate-limiter calls (for the sliding-window bound) -/

/-- Run `is_allowed` for one principal over a sequence of call times,
starting from state `st`, and collect the times of the allowed calls. -/
def allowed_times (max_requests : ℕ) (window_seconds : ℚ) (st : List ℚ) :
    List ℚ → List ℚ
  | [] => []
  | now :: rest =>
    match is_allowed max_requests window_seconds now st with
    | (b, st') =>
      (if b then [now] else []) ++ allowed_times max_requests window_seconds st' rest

/-! ## Basic characterizations -/

attribute [local semireducible] Rat.add Rat.sub Rat.mul Rat.inv

/-- `is_allowed`, spelled out. -/
theorem is_allowed_eq (max_requests : ℕ) (window_seconds now : ℚ) (st : List ℚ) :
    is_allowed max_requests window_seconds now st =
      if max_requests ≤ (clean_requests window_seconds now st).length then
        (false, clean_requests window_seconds now st)
      else (true, clean_requests window_seconds now st ++ [now]) := rfl

/-- `validate_token` in the admitted case. -/
theorem validate_token_allowed (tokens : List String) (max_requests : ℕ)
    (window_seconds now : ℚ) (token : String) (st : List ℚ)
    (hallow : (is_allowed max_requests window_seconds now st).1 = true) :
    validate_token tokens max_requests window_seconds now token st =
      if token ∈ tokens then (.ok (), (is_allowed max_requests window_seconds now st).2)
      else (.error .unauthenticated, (is_allowed max_requests window_seconds now st).2) := by
  unfold validate_token
  rcases h : is_allowed max_requests window_seconds now st with ⟨b, st'⟩
  rw [h] at hallow
  subst hallow
  simp

/-- A sample key directory holding all four key files with distinct contents. -/
def fs_demo : List (String × String) :=
  [("EncKey.json", "ENCKEYDATA"), ("EvalKey.json", "EVALKEYDATA"),
   ("MetadataKey.json", "METAKEYDATA"), ("SecKey.json", "SECKEYDATA")]

set_option maxRecDepth 4000 in
/-- C1 (counterexample): on a key directory where all four files exist, a valid
token admitted by the rate limiter receives a successful `get_public_key`
response whose serialized bytes DO contain the MetadataKey file contents,
refuting "the serialized bytes of the response contain neither the content of
the SecKey file nor the content of the MetadataKey file". -/
theorem claim_C1_counterexample :
    (get_public_key_impl VALID_TOKENS 30 60 0
        "DEMO-TOKEN-GET-YOUR-OWN-AT-ENVECTOR-IO" [] fs_demo).1
      = .ok (dumps_str_obj (build_bundle fs_demo)) ∧
    "METAKEYDATA".data <:+: (dumps_str_obj (build_bundle fs_demo)).data := by
  constructor
  · rfl
  · decide

/-- Every bundle entry comes from one of the three iterated public-key
filenames, with the file's content served verbatim. -/
theorem build_bundle_mem {fs : List (String × String)} {kv : String × String}
    (h : kv ∈ build_bundle fs) :
    kv.1 ∈ public_key_filenames ∧ fs.lookup kv.1 = some kv.2 := by
  unfold build_bundle at h
  rcases List.mem_filterMap.mp h with ⟨n, hn, he⟩
  rcases Option.map_eq_some'.mp he with ⟨c, hc, hkv⟩
  cases hkv
  exact ⟨hn, hc⟩

/-- The bundle's key list is exactly the iterated filenames that exist. -/
theorem filterMap_lookup_keys (fs : List (String × String)) :
    ∀ l : List String,
      (l.filterMap (fun n => (fs.lookup n).map (fun c => (n, c)))).map Prod.fst
        = l.filter (fun n => (fs.lookup n).isSome)
  | [] => rfl
  | n :: l => by
    cases h : fs.lookup n with
    | none =>
      simp only [List.filterMap_cons, List.filter_cons, h, Option.map_none',
        Option.isSome_none, Bool.false_eq_true, if_false]
      exact filterMap_lookup_keys fs l
    | some c =>
      simp only [List.filterMap_cons, List.filter_cons, h, Option.map_some',
        Option.isSome_some, if_true, List.map_cons]
      rw [filterMap_lookup_keys fs l]

/-- When the MetadataKey file exists, its content is one of the bundle values. -/
theorem build_bundle_metadata {fs : List (String × String)} {c : String}
    (h : fs.lookup "MetadataKey.json" = some c) :
    ("MetadataKey.json", c) ∈ build_bundle fs := by
  unfold build_bundle
  refine List.mem_filterMap.mpr ⟨"MetadataKey.json", by decide, ?_⟩
  rw [h]
  rfl

/-- C1 (amended): for every valid token admitted by the rate limiter,
`get_public_key` serves a bundle assembled only from the `EncKey.json`,
`EvalKey.json` and `MetadataKey.json` files — the SecKey file never
contributes an entry — with every value served verbatim; however the
MetadataKey file's content IS one of the returned values whenever that file
exists, so the original "never contains the MetadataKey content" is false. -/
theorem claim_C1 (tokens : List String) (max_requests : ℕ)
    (window_seconds now : ℚ) (token : String) (st : List ℚ)
    (fs : List (String × String)) (hmem : token ∈ tokens)
    (hallow : (is_allowed max_requests window_seconds now st).1 = true) :
    (get_public_key_impl tokens max_requests window_seconds now token st fs).1
      = .ok (dumps_str_obj (build_bundle fs)) ∧
    (∀ kv ∈ build_bundle fs, kv.1 ∈ public_key_filenames ∧ fs.lookup kv.1 = some kv.2) ∧
    "SecKey.json" ∉ (build_bundle fs).map Prod.fst ∧
    (∀ c, fs.lookup "MetadataKey.json" = some c →
      c ∈ (build_bundle fs).map Prod.snd) := by
  refine ⟨?_, fun kv h => build_bundle_mem h, ?_, ?_⟩
  · simp [get_public_key_impl,
      validate_token_allowed tokens max_requests window_seconds now token st hallow, hmem]
  · intro h
    rcases List.mem_map.mp h with ⟨kv, hkv, hfst⟩
    have hmem' := (build_bundle_mem hkv).1
    rw [hfst] at hmem'
    exact absurd hmem' (by decide)
  · intro c hc
    exact List.mem_map.mpr ⟨("MetadataKey.json", c), build_bundle_metadata hc, rfl⟩

/-- Witness for the amended C1 at a concrete instance. -/
theorem claim_C1_witness :
    "DEMO-TOKEN-GET-YOUR-OWN-AT-ENVECTOR-IO" ∈ VALID_TOKENS ∧
    (is_allowed 30 60 0 []).1 = true ∧
    "SecKey.json" ∉ (build_bundle fs_demo).map Prod.fst :=
  ⟨by decide, by decide,
    (claim_C1 VALID_TOKENS 30 60 0 "DEMO-TOKEN-GET-YOUR-OWN-AT-ENVECTOR-IO" [] fs_demo
      (by decide) (by decide)).2.2.1⟩

/-- C3 (counterexample): on a key directory where all four files exist, the
successful `get_public_key` response object has key set
`{"EncKey.json", "EvalKey.json", "MetadataKey.json"}` — not
`{"EncKey", "EvalKey"}` — and no `index_name` key, refuting the claimed key
set. -/
theorem claim_C3_counterexample :
    (get_public_key_impl VALID_TOKENS 30 60 0
        "DEMO-ADMIN-SIGNUP-AT-ENVECTOR-IO" [] fs_demo).1
      = .ok (dumps_str_obj (build_bundle fs_demo)) ∧
    (build_bundle fs_demo).map Prod.fst
      = ["EncKey.json", "EvalKey.json", "MetadataKey.json"] ∧
    (build_bundle fs_demo).map Prod.fst ≠ ["EncKey", "EvalKey"] ∧
    "index_name" ∉ (build_bundle fs_demo).map Prod.fst :=
  ⟨rfl, by decide, by decide, by decide⟩

/-- C3 (amended): for every valid token admitted by the rate limiter,
`get_public_key` returns the JSON object whose key list is exactly the
filenames among `EncKey.json`, `EvalKey.json`, `MetadataKey.json` whose
files exist (in that order — there is no `index_name` key and no bare
`EncKey`/`EvalKey` keys), each value being the on-disk file content served
verbatim. -/
theorem claim_C3 (tokens : List String) (max_requests : ℕ)
    (window_seconds now : ℚ) (token : String) (st : List ℚ)
    (fs : List (String × String)) (hmem : token ∈ tokens)
    (hallow : (is_allowed max_requests window_seconds now st).1 = true) :
    (get_public_key_impl tokens max_requests window_seconds now token st fs).1
      = .ok (dumps_str_obj (build_bundle fs)) ∧
    (build_bundle fs).map Prod.fst
      = public_key_filenames.filter (fun n => (fs.lookup n).isSome) ∧
    (∀ kv ∈ build_bundle fs, fs.lookup kv.1 = some kv.2) := by
  refine ⟨?_, filterMap_lookup_keys fs public_key_filenames,
    fun kv h => (build_bundle_mem h).2⟩
  simp [get_public_key_impl,
    validate_token_allowed tokens max_requests window_seconds now token st hallow, hmem]

/-- Witness for the amended C3 at a concrete instance. -/
theorem claim_C3_witness :
    "DEMO-ADMIN-SIGNUP-AT-ENVECTOR-IO" ∈ VALID_TOKENS ∧
    (is_allowed 30 60 0 []).1 = true ∧
    (build_bundle fs_demo).map Prod.fst
      = public_key_filenames.filter (fun n => (fs_demo.lookup n).isSome) :=
  ⟨by decide, by decide,
    (claim_C3 VALID_TOKENS 30 60 0 "DEMO-ADMIN-SIGNUP-AT-ENVECTOR-IO" [] fs_demo
      (by decide) (by decide)).2.1⟩

/-- C5: for every valid token admitted by the rate limiter, `top_k > 10`
makes `decrypt_scores` return the soft error
`{"error": "Rate Limit Exceeded: Max top_k is 10"}` — a success-shaped JSON
object, not an exception, identical for every decryption pipeline and blob
(so no decryption is performed) — while every `top_k` in `[1, 10]` passes
the policy check and reaches the decryption path. -/
theorem claim_C5 (tokens : List String) (max_requests : ℕ)
    (window_seconds now : ℚ) (dec : String → Except DecodeErr PyVec)
    (token blob : String) (top_k : ℤ) (st : List ℚ)
    (hmem : token ∈ tokens)
    (hallow : (is_allowed max_requests window_seconds now st).1 = true) :
    (10 < top_k →
      (decrypt_scores_impl tokens max_requests window_seconds now dec
          token blob top_k st).1
        = .ok (.obj [("error", .str "Rate Limit Exceeded: Max top_k is 10")])) ∧
    (1 ≤ top_k → top_k ≤ 10 → ∀ pv, dec blob = .ok pv →
      (decrypt_scores_impl tokens max_requests window_seconds now dec
          token blob top_k st).1
        = .ok (.arr ((score_params (unwrap_vector pv) top_k).map score_entry_json))) := by
  have hv := validate_token_allowed tokens max_requests window_seconds now token st hallow
  constructor
  · intro hk
    simp [decrypt_scores_impl, hv, hmem, hk]
  · intro h1 h10 pv hpv
    have hnk : ¬ 10 < top_k := by omega
    simp [decrypt_scores_impl, hv, hmem, hnk, hpv]

/-- Witness for C5 at a concrete instance (`top_k = 11`). -/
theorem claim_C5_witness :
    "DEMO-TOKEN-GET-YOUR-OWN-AT-ENVECTOR-IO" ∈ VALID_TOKENS ∧
    (is_allowed 30 60 0 []).1 = true ∧
    (10 : ℤ) < 11 ∧
    (decrypt_scores_impl VALID_TOKENS 30 60 0 (fun _ => .ok (.flat [1, 2]))
        "DEMO-TOKEN-GET-YOUR-OWN-AT-ENVECTOR-IO" "blob" 11 []).1
      = .ok (.obj [("error", .str "Rate Limit Exceeded: Max top_k is 10")]) :=
  ⟨by decide, by decide, by decide,
    (claim_C5 VALID_TOKENS 30 60 0 (fun _ => .ok (.flat [1, 2]))
      "DEMO-TOKEN-GET-YOUR-OWN-AT-ENVECTOR-IO" "blob" 11 []
      (by decide) (by decide)).1 (by decide)⟩

/-- C8: `validate_token` consumes rate-limit quota (appends the current
timestamp to the principal's list) exactly when `is_allowed` admitted the
call: an admitted call with an unknown token appends the timestamp and then
fails Unauthenticated, while a rate-limited call fails RateLimited leaving
only the cleaned list (nothing appended). -/
theorem claim_C8 (tokens : List String) (max_requests : ℕ)
    (window_seconds now : ℚ) (token : String) (st : List ℚ) :
    ((is_allowed max_requests window_seconds now st).1 = true →
      (validate_token tokens max_requests window_seconds now token st).2
        = clean_requests window_seconds now st ++ [now]) ∧
    ((is_allowed max_requests window_seconds now st).1 = false →
      (validate_token tokens max_requests window_seconds now token st).2
        = clean_requests window_seconds now st ∧
      ∃ r, (validate_token tokens max_requests window_seconds now token st).1
        = .error (.rateLimited r)) ∧
    (token ∉ tokens → (is_allowed max_requests window_seconds now st).1 = true →
      (validate_token tokens max_requests window_seconds now token st).1
        = .error .unauthenticated ∧
      (validate_token tokens max_requests window_seconds now token st).2
        = clean_requests window_seconds now st ++ [now]) := by
  by_cases hc : max_requests ≤ (clean_requests window_seconds now st).length
  · have he : is_allowed max_requests window_seconds now st
        = (false, clean_requests window_seconds now st) := by
      rw [is_allowed_eq, if_pos hc]
    refine ⟨?_, ?_, ?_⟩
    · intro h; rw [he] at h; simp at h
    · intro _
      simp [validate_token, he]
    · intro _ h; rw [he] at h; simp at h
  · have he : is_allowed max_requests window_seconds now st
        = (true, clean_requests window_seconds now st ++ [now]) := by
      rw [is_allowed_eq, if_neg hc]
    refine ⟨?_, ?_, ?_⟩
    · intro _
      by_cases hm : token ∈ tokens <;> simp [validate_token, he, hm]
    · intro h; rw [he] at h; simp at h
    · intro hm _
      simp [validate_token, he, hm]

/-- Witness for C8: an unknown token, admitted by the limiter, consumes
quota and then fails Unauthenticated. -/
theorem claim_C8_witness :
    ("nope" ∉ VALID_TOKENS) ∧
    (is_allowed 30 60 0 ([] : List ℚ)).1 = true ∧
    ((validate_token VALID_TOKENS 30 60 0 "nope" []).1 = .error .unauthenticated ∧
     (validate_token VALID_TOKENS 30 60 0 "nope" []).2
       = clean_requests 60 0 [] ++ [0]) :=
  ⟨by decide, by decide,
    (claim_C8 VALID_TOKENS 30 60 0 "nope" []).2.2 (by decide) (by decide)⟩

/-- C10: `get_public_key` is token-noninterferent on success — for any two
valid tokens both admitted by the rate limiter (in arbitrary limiter states
and at arbitrary times), the returned payload is the same, determined only
by the key-directory contents. -/
theorem claim_C10 (tokens : List String) (max_requests : ℕ)
    (window_seconds now₁ now₂ : ℚ) (t₁ t₂ : String) (st₁ st₂ : List ℚ)
    (fs : List (String × String)) (h1 : t₁ ∈ tokens) (h2 : t₂ ∈ tokens)
    (ha1 : (is_allowed max_requests window_seconds now₁ st₁).1 = true)
    (ha2 : (is_allowed max_requests window_seconds now₂ st₂).1 = true) :
    (get_public_key_impl tokens max_requests window_seconds now₁ t₁ st₁ fs).1
      = (get_public_key_impl tokens max_requests window_seconds now₂ t₂ st₂ fs).1 ∧
    (get_public_key_impl tokens max_requests window_seconds now₁ t₁ st₁ fs).1
      = .ok (dumps_str_obj (build_bundle fs)) := by
  have e1 := validate_token_allowed tokens max_requests window_seconds now₁ t₁ st₁ ha1
  have e2 := validate_token_allowed tokens max_requests window_seconds now₂ t₂ st₂ ha2
  constructor <;> simp [get_public_key_impl, e1, e2, h1, h2]

/-- Witness for C10 with the two demo tokens in distinct limiter states. -/
theorem claim_C10_witness :
    "DEMO-TOKEN-GET-YOUR-OWN-AT-ENVECTOR-IO" ∈ VALID_TOKENS ∧
    "DEMO-ADMIN-SIGNUP-AT-ENVECTOR-IO" ∈ VALID_TOKENS ∧
    (is_allowed 30 60 0 ([] : List ℚ)).1 = true ∧
    (is_allowed 30 60 1 ([0] : List ℚ)).1 = true ∧
    (get_public_key_impl VALID_TOKENS 30 60 0
        "DEMO-TOKEN-GET-YOUR-OWN-AT-ENVECTOR-IO" [] fs_demo).1
      = (get_public_key_impl VALID_TOKENS 30 60 1
          "DEMO-ADMIN-SIGNUP-AT-ENVECTOR-IO" [0] fs_demo).1 :=
  ⟨by decide, by decide, by decide, by decide,
    (claim_C10 VALID_TOKENS 30 60 0 1
      "DEMO-TOKEN-GET-YOUR-OWN-AT-ENVECTOR-IO" "DEMO-ADMIN-SIGNUP-AT-ENVECTOR-IO"
      [] [0] fs_demo (by decide) (by decide) (by decide) (by decide)).1⟩

/-- The key list of a JSON object (empty for non-objects). -/
def json_keys : JsonVal → List String
  | .obj kvs => kvs.map Prod.fst
  | _ => []

/-- C2 (code evaluated at the failing input): for a valid admitted token and
a blob whose decryption yields the flat score vector `[9/10, 1/2]`,
`_decrypt_scores_impl` returns entries shaped `{"index": i, "score": s}`
over flat positions — every entry's key list is `["index", "score"]`, so the
`{shard_idx, row_idx, score}` triples required by the claim (and by the
repository's own gRPC servicer and integration test) are never produced. -/
theorem claim_C2 :
    (decrypt_scores_impl VALID_TOKENS 30 60 0 (fun _ => .ok (.flat [9/10, 1/2]))
        "DEMO-TOKEN-GET-YOUR-OWN-AT-ENVECTOR-IO" "blob" 5 []).1
      = .ok (.arr [.obj [("index", .num 0), ("score", .num (9/10))],
                   .obj [("index", .num 1), ("score", .num (1/2))]]) ∧
    (score_params ([9/10, 1/2] : List ℚ) 5).map (fun e => json_keys (score_entry_json e))
      = [["index", "score"], ["index", "score"]] :=
  ⟨rfl, rfl⟩

/-- If any element of the batch fails to decrypt, the whole batch fails with
the first failing element's message. -/
theorem decrypt_all_error (dec : String → Except String JsonVal) :
    ∀ lst : List String, (∃ x ∈ lst, ∃ e, dec x = .error e) →
      ∃ msg, decrypt_all dec lst = .error msg
  | [], h => by rcases h with ⟨x, hx, _⟩; exact absurd hx (List.not_mem_nil x)
  | x :: xs, h => by
    cases hd : dec x with
    | error e => exact ⟨e, by simp [decrypt_all, hd]⟩
    | ok v =>
      rcases h with ⟨y, hy, e, he⟩
      rcases List.mem_cons.mp hy with rfl | hy'
      · rw [hd] at he; cases he
      · rcases decrypt_all_error dec xs ⟨y, hy', e, he⟩ with ⟨msg, hmsg⟩
        exact ⟨msg, by simp [decrypt_all, hd, hmsg, Except.map]⟩

/-- C4: for every valid token admitted by the rate limiter (with the
MetadataKey file present), `decrypt_metadata` on the empty list succeeds
with the empty JSON array, and for any list in which some element's
decryption fails, the whole batch returns the soft error
`{"error": "Metadata decryption failed: <detail>"}`. -/
theorem claim_C4 (tokens : List String) (max_requests : ℕ)
    (window_seconds now : ℚ) (aes_decrypt : String → Except String JsonVal)
    (token : String) (st : List ℚ) (hmem : token ∈ tokens)
    (hallow : (is_allowed max_requests window_seconds now st).1 = true) :
    (decrypt_metadata_impl tokens max_requests window_seconds now true
        aes_decrypt token [] st).1 = .ok (.arr []) ∧
    (∀ lst : List String, (∃ x ∈ lst, ∃ e, aes_decrypt x = .error e) →
      ∃ msg, (decrypt_metadata_impl tokens max_requests window_seconds now true
          aes_decrypt token lst st).1
        = .ok (.obj [("error", .str ("Metadata decryption failed: " ++ msg))])) := by
  have hv := validate_token_allowed tokens max_requests window_seconds now token st hallow
  constructor
  · simp [decrypt_metadata_impl, hv, hmem, decrypt_all]
  · intro lst h
    rcases decrypt_all_error aes_decrypt lst h with ⟨msg, hmsg⟩
    exact ⟨msg, by simp [decrypt_metadata_impl, hv, hmem, hmsg]⟩

/-- Witness for C4 at a concrete instance: an empty batch succeeds with `[]`,
and a batch whose second element fails produces the batch-wide soft error. -/
theorem claim_C4_witness :
    "DEMO-ADMIN-SIGNUP-AT-ENVECTOR-IO" ∈ VALID_TOKENS ∧
    (is_allowed 30 60 0 ([] : List ℚ)).1 = true ∧
    (decrypt_metadata_impl VALID_TOKENS 30 60 0 true
        (fun s => if s = "bad" then .error "boom" else .ok (.str s))
        "DEMO-ADMIN-SIGNUP-AT-ENVECTOR-IO" [] []).1 = .ok (.arr []) :=
  ⟨by decide, by decide,
    (claim_C4 VALID_TOKENS 30 60 0
      (fun s => if s = "bad" then .error "boom" else .ok (.str s))
      "DEMO-ADMIN-SIGNUP-AT-ENVECTOR-IO" [] (by decide) (by decide)).1⟩

/-! ## Top-K selection properties -/

/-- `argsort` permutes all positions of the vector. -/
theorem argsort_length (v : List ℚ) : (argsort v).length = v.length := by
  unfold argsort
  rw [List.length_insertionSort, List.length_range]

/-- `argsort` is sorted by value (ties by position). -/
theorem sorted_argsort (v : List ℚ) : List.Sorted (idx_le v) (argsort v) :=
  List.sorted_insertionSort (idx_le v) (List.range v.length)

/-- Scores along a position list sorted by `idx_le` are non-decreasing. -/
theorem sorted_values {v : List ℚ} {l : List ℕ} (h : List.Sorted (idx_le v) l) :
    (l.map (fun i => v.getD i 0)).Pairwise (· ≤ ·) := by
  rw [List.pairwise_map]
  exact h.imp (fun hij => hij.elim le_of_lt (fun he => he.1.le))

/-- Scores along the reversal of an `idx_le`-sorted position list are
non-increasing. -/
theorem reverse_values_antitone {v : List ℚ} {l : List ℕ}
    (h : List.Sorted (idx_le v) l) :
    (l.reverse.map (fun i => v.getD i 0)).Pairwise (· ≥ ·) := by
  rw [List.map_reverse, List.pairwise_reverse]
  exact sorted_values h

/-- Both branches of `top_indices` are reversals of `idx_le`-sorted lists. -/
theorem top_indices_sorted (v : List ℚ) (k : ℤ) :
    ∃ l, List.Sorted (idx_le v) l ∧ top_indices v k = l.reverse := by
  unfold top_indices
  split
  · exact ⟨argsort v, sorted_argsort v, rfl⟩
  · exact ⟨_, List.sorted_insertionSort _ _, rfl⟩

/-- The selected scores are non-increasing, for every `top_k`. -/
theorem score_params_antitone (v : List ℚ) (k : ℤ) :
    ((score_params v k).map ScoreEntry.score).Pairwise (· ≥ ·) := by
  rcases top_indices_sorted v k with ⟨l, hl, he⟩
  unfold score_params
  rw [he, List.map_map]
  exact reverse_values_antitone hl

/-- For `top_k ≥ 1` the selection has `min top_k n` entries. -/
theorem top_indices_length (v : List ℚ) (k : ℤ) (hk : 1 ≤ k) :
    (top_indices v k).length = min k.toNat v.length := by
  unfold top_indices
  split
  case isTrue h =>
    rw [List.length_reverse, argsort_length]
    omega
  case isFalse h =>
    rw [List.length_reverse, List.length_insertionSort]
    unfold py_slice_from
    rw [if_pos (by omega : -k < 0)]
    rw [List.length_drop, argsort_length]
    omega

/-- The empty score vector selects nothing. -/
theorem score_params_nil (k : ℤ) (hk : 0 ≤ k) : score_params [] k = [] := by
  unfold score_params top_indices
  rw [if_pos (by simpa using hk)]
  rfl

/-- For `top_k = 0` on a nonempty vector, the Python slice `[-0:]` keeps the
whole array, so every position is selected. -/
theorem top_indices_length_zero (v : List ℚ) (hv : 1 ≤ v.length) :
    (top_indices v 0).length = v.length := by
  unfold top_indices
  rw [if_neg (by omega)]
  have h0 : py_slice_from (-(0 : ℤ)) (argsort v) = argsort v := by
    unfold py_slice_from
    simp
  rw [List.length_reverse, List.length_insertionSort, h0, argsort_length]

/-- The success path of `_decrypt_scores_impl`, shared by several claims. -/
theorem decrypt_scores_ok (tokens : List String) (max_requests : ℕ)
    (window_seconds now : ℚ) (dec : String → Except DecodeErr PyVec)
    (token blob : String) (top_k : ℤ) (st : List ℚ) (pv : PyVec)
    (hmem : token ∈ tokens)
    (hallow : (is_allowed max_requests window_seconds now st).1 = true)
    (hk : ¬ 10 < top_k) (hdec : dec blob = .ok pv) :
    (decrypt_scores_impl tokens max_requests window_seconds now dec
        token blob top_k st).1
      = .ok (.arr ((score_params (unwrap_vector pv) top_k).map score_entry_json)) := by
  have hv := validate_token_allowed tokens max_requests window_seconds now token st hallow
  simp [decrypt_scores_impl, hv, hmem, hk, hdec]

/-- C6: for every valid token admitted by the rate limiter, every blob whose
decryption succeeds, and every `top_k` in `[1, 10]`, the `decrypt_scores`
output is the JSON array of the selected entries, of length
`min top_k total_entries`, with scores non-increasing; an empty decrypted
vector yields `[]`. -/
theorem claim_C6 (tokens : List String) (max_requests : ℕ)
    (window_seconds now : ℚ) (dec : String → Except DecodeErr PyVec)
    (token blob : String) (top_k : ℤ) (st : List ℚ) (pv : PyVec)
    (hmem : token ∈ tokens)
    (hallow : (is_allowed max_requests window_seconds now st).1 = true)
    (hk1 : 1 ≤ top_k) (hk10 : top_k ≤ 10) (hdec : dec blob = .ok pv) :
    (decrypt_scores_impl tokens max_requests window_seconds now dec
        token blob top_k st).1
      = .ok (.arr ((score_params (unwrap_vector pv) top_k).map score_entry_json)) ∧
    (score_params (unwrap_vector pv) top_k).length
      = min top_k.toNat (unwrap_vector pv).length ∧
    ((score_params (unwrap_vector pv) top_k).map ScoreEntry.score).Pairwise (· ≥ ·) ∧
    (unwrap_vector pv = [] → score_params (unwrap_vector pv) top_k = []) := by
  refine ⟨decrypt_scores_ok tokens max_requests window_seconds now dec token blob
      top_k st pv hmem hallow (by omega) hdec, ?_, score_params_antitone _ _, ?_⟩
  · unfold score_params
    rw [List.length_map]
    exact top_indices_length _ _ hk1
  · intro h
    rw [h]
    exact score_params_nil _ (by omega)

/-- Witness for C6 at a concrete instance (`top_k = 2`, three scores). -/
theorem claim_C6_witness :
    "DEMO-TOKEN-GET-YOUR-OWN-AT-ENVECTOR-IO" ∈ VALID_TOKENS ∧
    (is_allowed 30 60 0 ([] : List ℚ)).1 = true ∧
    (1 : ℤ) ≤ 2 ∧ (2 : ℤ) ≤ 10 ∧
    (score_params (unwrap_vector (.flat [2, 1, 3])) 2).length
      = min (2 : ℤ).toNat (unwrap_vector (.flat [2, 1, 3])).length :=
  ⟨by decide, by decide, by decide, by decide,
    (claim_C6 VALID_TOKENS 30 60 0 (fun _ => .ok (.flat [2, 1, 3]))
      "DEMO-TOKEN-GET-YOUR-OWN-AT-ENVECTOR-IO" "blob" 2 [] (.flat [2, 1, 3])
      (by decide) (by decide) (by decide) (by decide) rfl).2.1⟩

/-- C9: for every valid token admitted by the rate limiter and every blob
decrypting to a nonempty score vector, `top_k = 0` passes the policy check
(only `top_k > 10` is tested) and the Python slice `[-0:]` selects the whole
array, so `decrypt_scores` returns ALL entries sorted descending rather than
an empty array. -/
theorem claim_C9 (tokens : List String) (max_requests : ℕ)
    (window_seconds now : ℚ) (dec : String → Except DecodeErr PyVec)
    (token blob : String) (st : List ℚ) (pv : PyVec)
    (hmem : token ∈ tokens)
    (hallow : (is_allowed max_requests window_seconds now st).1 = true)
    (hdec : dec blob = .ok pv) (hv1 : 1 ≤ (unwrap_vector pv).length) :
    ¬ (10 : ℤ) < 0 ∧
    (decrypt_scores_impl tokens max_requests window_seconds now dec
        token blob 0 st).1
      = .ok (.arr ((score_params (unwrap_vector pv) 0).map score_entry_json)) ∧
    (score_params (unwrap_vector pv) 0).length = (unwrap_vector pv).length ∧
    ((score_params (unwrap_vector pv) 0).map ScoreEntry.score).Pairwise (· ≥ ·) := by
  refine ⟨by decide,
    decrypt_scores_ok tokens max_requests window_seconds now dec token blob
      0 st pv hmem hallow (by decide) hdec, ?_, score_params_antitone _ _⟩
  unfold score_params
  rw [List.length_map]
  exact top_indices_length_zero _ hv1

/-- Witness for C9 at a concrete instance: `top_k = 0` returns both entries. -/
theorem claim_C9_witness :
    "DEMO-ADMIN-SIGNUP-AT-ENVECTOR-IO" ∈ VALID_TOKENS ∧
    (is_allowed 30 60 0 ([] : List ℚ)).1 = true ∧
    1 ≤ (unwrap_vector (.flat [5, 7])).length ∧
    (score_params (unwrap_vector (.flat [5, 7])) 0).length
      = (unwrap_vector (.flat [5, 7])).length :=
  ⟨by decide, by decide, by decide,
    (claim_C9 VALID_TOKENS 30 60 0 (fun _ => .ok (.flat [5, 7]))
      "DEMO-ADMIN-SIGNUP-AT-ENVECTOR-IO" "blob" [] (.flat [5, 7])
      (by decide) (by decide) rfl (by decide)).2.2.1⟩

/-! ## The sliding-window guarantee of the rate limiter -/

/-- Cleaning at a later time subsumes cleaning at an earlier one. -/
theorem clean_clean (window_seconds : ℚ) {p now : ℚ} (hpn : p ≤ now)
    (l : List ℚ) :
    clean_requests window_seconds now (clean_requests window_seconds p l)
      = clean_requests window_seconds now l := by
  unfold clean_requests
  rw [List.filter_filter]
  apply List.filter_congr
  intro t _
  by_cases h : now - t < window_seconds
  · have h2 : p - t < window_seconds := by linarith
    simp [h, h2]
  · simp [h]

/-- Core invariant of the limiter trace: starting from a state that is the
cleaned list of a past-allowed-times history `h`, whenever a later call is
allowed at time `t`, fewer than `max_requests` of the previously allowed
times (history and trace combined) lie within the window ending at `t`. -/
theorem allowed_split_bound (max_requests : ℕ) (window_seconds : ℚ)
    (hW : 0 < window_seconds) :
    ∀ (ts : List ℚ) (p : ℚ) (h : List ℚ),
      (p :: ts).Pairwise (· ≤ ·) →
      ∀ (A₁ : List ℚ) (t : ℚ) (A₂ : List ℚ),
        allowed_times max_requests window_seconds
            (clean_requests window_seconds p h) ts = A₁ ++ t :: A₂ →
        ((h ++ A₁).filter
            (fun u => decide (t - u < window_seconds))).length < max_requests := by
  intro ts
  induction ts with
  | nil =>
    intro p h _ A₁ t A₂ hsplit
    simp [allowed_times] at hsplit
  | cons now rest ih =>
    intro p h hpw A₁ t A₂ hsplit
    have hpn : p ≤ now := (List.pairwise_cons.mp hpw).1 now (by simp)
    have hrest : (now :: rest).Pairwise (· ≤ ·) := (List.pairwise_cons.mp hpw).2
    have hcc : clean_requests window_seconds now (clean_requests window_seconds p h)
        = clean_requests window_seconds now h := clean_clean window_seconds hpn h
    by_cases hc : max_requests ≤ (clean_requests window_seconds now h).length
    · have heq : is_allowed max_requests window_seconds now
          (clean_requests window_seconds p h)
          = (false, clean_requests window_seconds now h) := by
        rw [is_allowed_eq, hcc, if_pos hc]
      rw [allowed_times, heq] at hsplit
      simp only [if_false, List.nil_append] at hsplit
      exact ih now h hrest A₁ t A₂ hsplit
    · have heq : is_allowed max_requests window_seconds now
          (clean_requests window_seconds p h)
          = (true, clean_requests window_seconds now h ++ [now]) := by
        rw [is_allowed_eq, hcc, if_neg hc]
      have happ : clean_requests window_seconds now h ++ [now]
          = clean_requests window_seconds now (h ++ [now]) := by
        unfold clean_requests
        rw [List.filter_append]
        congr 1
        simp [sub_self, hW]
      rw [allowed_times, heq] at hsplit
      simp only [if_true, List.singleton_append] at hsplit
      cases A₁ with
      | nil =>
        simp only [List.nil_append, List.cons.injEq] at hsplit
        obtain ⟨rfl, -⟩ := hsplit
        simp only [List.append_nil]
        have hlen : (clean_requests window_seconds now h).length < max_requests := by
          omega
        simpa [clean_requests] using hlen
      | cons a A₁' =>
        simp only [List.cons_append, List.cons.injEq] at hsplit
        obtain ⟨rfl, hsplit'⟩ := hsplit
        rw [happ] at hsplit'
        have := ih now (h ++ [now]) hrest A₁' t A₂ hsplit'
        have hre : (h ++ [now]) ++ A₁' = h ++ now :: A₁' := by
          rw [List.append_assoc]
          rfl
        rw [hre] at this
        exact this

/-- Specialization to a fresh principal (empty starting state): whenever a
call is allowed at time `t`, fewer than `max_requests` earlier allowed calls
lie within the window ending at `t`. -/
theorem allowed_call_bound (max_requests : ℕ) (window_seconds : ℚ)
    (hW : 0 < window_seconds) (ts : List ℚ) (hts : ts.Pairwise (· ≤ ·))
    (A₁ : List ℚ) (t : ℚ) (A₂ : List ℚ)
    (hsplit : allowed_times max_requests window_seconds [] ts = A₁ ++ t :: A₂) :
    (A₁.filter (fun u => decide (t - u < window_seconds))).length
      < max_requests := by
  cases ts with
  | nil => simp [allowed_times] at hsplit
  | cons t₀ rest =>
    have hpw : (t₀ :: t₀ :: rest).Pairwise (· ≤ ·) := by
      rw [List.pairwise_cons]
      refine ⟨fun x hx => ?_, hts⟩
      rcases List.mem_cons.mp hx with rfl | hx'
      · exact le_refl x
      · exact (List.pairwise_cons.mp hts).1 x hx'
    have h0 : ([] : List ℚ) = clean_requests window_seconds t₀ [] := rfl
    rw [h0] at hsplit
    have := allowed_split_bound max_requests window_seconds hW
      (t₀ :: rest) t₀ [] hpw A₁ t A₂ hsplit
    simpa using this

/-- Decomposing a super-list around a marked element of a sublist. -/
theorem sublist_split {α : Type} {a : α} :
    ∀ {m l₁ l₂ : List α}, List.Sublist (l₁ ++ a :: l₂) m →
      ∃ m₁ m₂, m = m₁ ++ a :: m₂ ∧ List.Sublist l₁ m₁ := by
  intro m
  induction m with
  | nil =>
    intro l₁ l₂ h
    have := List.sublist_nil.mp h
    simp at this
  | cons b m ih =>
    intro l₁ l₂ h
    cases l₁ with
    | nil =>
      simp only [List.nil_append] at h
      cases h with
      | cons _ h' =>
        obtain ⟨m₁, m₂, rfl, -⟩ := @ih [] l₂ (by simpa using h')
        exact ⟨b :: m₁, m₂, rfl, List.nil_sublist _⟩
      | cons₂ h' =>
        exact ⟨[], m, rfl, List.nil_sublist _⟩
    | cons c l₁' =>
      rw [List.cons_append] at h
      cases h with
      | cons _ h' =>
        obtain ⟨m₁, m₂, rfl, hsub⟩ := @ih (c :: l₁') l₂ h'
        exact ⟨b :: m₁, m₂, rfl, hsub.cons b⟩
      | cons₂ _ h' =>
        obtain ⟨m₁, m₂, rfl, hsub⟩ := @ih l₁' l₂ h'
        exact ⟨b :: m₁, m₂, rfl, hsub.cons₂ b⟩

/-- A sublist all of whose elements satisfy `p` is no longer than the
filtered super-list. -/
theorem length_le_filter {α : Type} (p : α → Bool) {l m : List α}
    (hsub : List.Sublist l m) (hall : ∀ x ∈ l, p x = true) :
    l.length ≤ (m.filter p).length := by
  calc l.length = (l.filter p).length := by rw [List.filter_eq_self.mpr hall]
  _ ≤ (m.filter p).length := (hsub.filter p).length_le

/-- Counting argument: if every allowed call sees fewer than `max_requests`
earlier allowed calls within its trailing window, then no width-`W` window
`(a, a + W]` contains more than `max_requests` allowed calls. -/
theorem window_count_le (max_requests : ℕ) (window_seconds : ℚ) (A : List ℚ)
    (hK : ∀ (A₁ : List ℚ) (t : ℚ) (A₂ : List ℚ), A = A₁ ++ t :: A₂ →
      (A₁.filter (fun u => decide (t - u < window_seconds))).length
        < max_requests)
    (a : ℚ) :
    (A.filter
        (fun u => decide (a < u) && decide (u ≤ a + window_seconds))).length
      ≤ max_requests := by
  by_contra hc
  push_neg at hc
  set p : ℚ → Bool := fun u => decide (a < u) && decide (u ≤ a + window_seconds)
    with hp
  set F := A.filter p with hF
  have hFne : F ≠ [] := by
    intro h
    rw [h] at hc
    simp at hc
  have hsplitF : F.dropLast ++ [F.getLast hFne] = F :=
    List.dropLast_append_getLast hFne
  set t := F.getLast hFne with ht
  have hFsub : List.Sublist F A := List.filter_sublist A
  have hsub2 : List.Sublist (F.dropLast ++ t :: []) A := by
    rw [hsplitF]
    exact hFsub
  obtain ⟨m₁, m₂, hA, hsubm⟩ := sublist_split hsub2
  have hbound := hK m₁ t m₂ hA
  have hmemF : ∀ x ∈ F, p x = true := fun x hx => (List.mem_filter.mp hx).2
  have htw : a < t ∧ t ≤ a + window_seconds := by
    have hmem := hmemF t (List.getLast_mem hFne)
    rw [hp] at hmem
    simpa using hmem
  have hall : ∀ x ∈ F.dropLast, decide (t - x < window_seconds) = true := by
    intro x hx
    have hxF : x ∈ F := (List.dropLast_sublist F).subset hx
    have hmem := hmemF x hxF
    rw [hp] at hmem
    simp only [Bool.and_eq_true, decide_eq_true_eq] at hmem
    simp only [decide_eq_true_eq]
    linarith [htw.2, hmem.1]
  have hlen := length_le_filter _ hsubm hall
  have hFlen : F.length = F.dropLast.length + 1 := by
    conv_lhs => rw [← hsplitF]
    simp
  omega

/-- C7: the rate limiter's step behaves exactly as described — it first
drops the timestamps outside the window, refuses without appending when the
remaining count is at least `max_requests`, and otherwise appends `now` and
allows — and consequently, for every principal and monotone sequence of call
times, at most `max_requests` calls are allowed inside any window
`(a, a + window_seconds]` (instantiated at the defaults 30 and 60 in the
witness). -/
theorem claim_C7 (max_requests : ℕ) (window_seconds : ℚ)
    (hW : 0 < window_seconds) :
    (∀ (now : ℚ) (st : List ℚ),
      max_requests ≤ (clean_requests window_seconds now st).length →
        is_allowed max_requests window_seconds now st
          = (false, clean_requests window_seconds now st)) ∧
    (∀ (now : ℚ) (st : List ℚ),
      (clean_requests window_seconds now st).length < max_requests →
        is_allowed max_requests window_seconds now st
          = (true, clean_requests window_seconds now st ++ [now])) ∧
    (∀ ts : List ℚ, ts.Pairwise (· ≤ ·) → ∀ a : ℚ,
      ((allowed_times max_requests window_seconds [] ts).filter
          (fun u => decide (a < u) && decide (u ≤ a + window_seconds))).length
        ≤ max_requests) := by
  refine ⟨?_, ?_, ?_⟩
  · intro now st h
    rw [is_allowed_eq, if_pos h]
  · intro now st h
    rw [is_allowed_eq, if_neg (by omega)]
  · intro ts hts a
    exact window_count_le max_requests window_seconds _
      (fun A₁ t A₂ hsplit =>
        allowed_call_bound max_requests window_seconds hW ts hts A₁ t A₂ hsplit) a

/-- Witness for C7 at the default configuration (30 requests / 60 seconds)
on a concrete monotone trace. -/
theorem claim_C7_witness :
    (0 : ℚ) < 60 ∧
    ([(0 : ℚ), 1, 2].Pairwise (· ≤ ·)) ∧
    ((allowed_times 30 60 [] [(0 : ℚ), 1, 2]).filter
        (fun u => decide ((0 : ℚ) < u) && decide (u ≤ 0 + 60))).length ≤ 30 :=
  ⟨by decide, by decide, (claim_C7 30 60 (by decide)).2.2 [0, 1, 2] (by decide) 0⟩
